import Mathlib

/-!
Verification of the tenant-isolated event distribution core of the
multi-tenant real-time event feed service.

The embedding models, from the source:
  - `config/config.js`            : `supportedTenants`, `maxEventMessageLength`
  - `src/services/tenantService.js`  : `TenantService` (per-tenant bounded log)
  - `src/services/eventService.js`   : `EventService` (validation, creation,
                                       sanitization, statistics)
  - `src/controllers/eventController.js` : the creation pipeline
                                       (`sanitizeMessage` then `createEvent`)

Modelling conventions:
  - JavaScript strings are `List Char`; `String.prototype.trim` is `jsTrim`
    over the ECMAScript whitespace set.
  - A JavaScript value that may or may not be a string is `JsValue`:
    `vStr s` is a string, `vOther` is any non-string value (`undefined`,
    `null`, numbers, objects, ...) — all of which the source treats
    identically in the modelled functions (falsy-or-wrong-`typeof` checks).
  - The random `uuidv4()` identifier and the `Date` timestamp are modelled
    by a monotone counter `nextId` threaded through the state: all the
    source relies on is freshness/monotonicity.
  - Thrown `Error`s are `Except Err`; the three produced error kinds are
    `unknownTenant`, `invalidMessage` and `messageTooLong` (matching the
    messages thrown by `tenantService.addEvent`/`eventService.createEvent`).
  - The `Map` of per-tenant event arrays is a total function
    `String → List Event`; every supported tenant is initialised to `[]`
    and the accessors validate the tenant before any lookup, as the source
    does.
-/

/-- config.js: `supportedTenants: ['tenant_a', 'tenant_b']`. -/
def supportedTenants : List String := ["tenant_a", "tenant_b"]

/-- config.js: `maxEventMessageLength: 500`. -/
def maxEventMessageLength : Nat := 500

/-- A JavaScript value passed where a string is expected: either an actual
string or any non-string value (all non-strings behave identically in the
modelled code paths). -/
inductive JsValue where
  | vStr (s : List Char)
  | vOther
deriving DecidableEq

/-- The ECMAScript WhiteSpace and LineTerminator characters removed by
`String.prototype.trim`. -/
def jsWhitespaceChars : List Char :=
  ['\t', '\n', '\x0b', '\x0c', '\r', ' ',
   Char.ofNat 0xa0, Char.ofNat 0x1680,
   Char.ofNat 0x2000, Char.ofNat 0x2001, Char.ofNat 0x2002, Char.ofNat 0x2003,
   Char.ofNat 0x2004, Char.ofNat 0x2005, Char.ofNat 0x2006, Char.ofNat 0x2007,
   Char.ofNat 0x2008, Char.ofNat 0x2009, Char.ofNat 0x200a,
   Char.ofNat 0x2028, Char.ofNat 0x2029, Char.ofNat 0x202f,
   Char.ofNat 0x205f, Char.ofNat 0x3000, Char.ofNat 0xfeff]

/-- Whether `c` is whitespace for `String.prototype.trim`. -/
def isJsWhitespace (c : Char) : Bool := jsWhitespaceChars.contains c

/-- Drop leading JS whitespace. -/
def trimLeft (l : List Char) : List Char := l.dropWhile isJsWhitespace

/-- Drop trailing JS whitespace. -/
def trimRight (l : List Char) : List Char :=
  (l.reverse.dropWhile isJsWhitespace).reverse

/-- `String.prototype.trim`: drop leading and trailing JS whitespace. -/
def jsTrim (l : List Char) : List Char := trimRight (trimLeft l)

/-- `str.replace(/c/g, repl)` for a single-character pattern: replace every
occurrence of `c` by `repl`. -/
def replaceAll (c : Char) (repl : List Char) : List Char → List Char
  | [] => []
  | x :: xs => (if x = c then repl else [x]) ++ replaceAll c repl xs

def entAmp : List Char := ("&amp;").toList
def entLt : List Char := ("&lt;").toList
def entGt : List Char := ("&gt;").toList
def entQuot : List Char := ("&quot;").toList
def entApos : List Char := ("&#x27;").toList
def entSlash : List Char := ("&#x2F;").toList

/-- The replacement chain of `eventService.sanitizeMessage`, in source
order: `&` first, then `<`, `>`, `"`, `'`, `/`. -/
def escapeHtml (s : List Char) : List Char :=
  replaceAll '/' entSlash
    (replaceAll '\'' entApos
      (replaceAll '"' entQuot
        (replaceAll '>' entGt
          (replaceAll '<' entLt
            (replaceAll '&' entAmp s)))))

/-- The stored `Event` record (`id`/`timestamp` rendered from the monotone
counter, see header comment). -/
structure Event where
  id : Nat
  tenant_id : String
  message : List Char
  timestamp : Nat
deriving DecidableEq

/-- The in-memory state: the `TenantService` per-tenant event arrays plus
the freshness counter standing in for `uuidv4()`/`Date`. -/
structure LogState where
  events : String → List Event
  nextId : Nat

/-- The error kinds thrown by the core. -/
inductive Err where
  | unknownTenant
  | invalidMessage
  | messageTooLong
deriving DecidableEq

/-- The state at process start: every tenant's array initialised empty. -/
def initState : LogState := { events := fun _ => [], nextId := 0 }

namespace TenantService

/-- tenantService.js `isValidTenant`: non-empty string contained in the
configured tenant set. -/
def isValidTenant (tenantId : String) : Bool :=
  if tenantId = "" then false
  else supportedTenants.contains tenantId

/-- tenantService.js `MAX_EVENTS_PER_TENANT`. -/
def MAX_EVENTS_PER_TENANT : Nat := 1000

/-- The successful body of `addEvent`: `unshift` the event (newest first),
then `splice(MAX_EVENTS_PER_TENANT)` when the length exceeds the cap. -/
def appendEvent (st : LogState) (tenantId : String) (event : Event) :
    LogState :=
  let tenantEvents := event :: st.events tenantId
  let capped :=
    if MAX_EVENTS_PER_TENANT < tenantEvents.length then
      tenantEvents.take MAX_EVENTS_PER_TENANT
    else tenantEvents
  { st with events := fun u => if u = tenantId then capped else st.events u }

/-- tenantService.js `addEvent`: validate the tenant, then append with
cap eviction. -/
def addEvent (st : LogState) (tenantId : String) (event : Event) :
    Except Err LogState :=
  if isValidTenant tenantId then Except.ok (appendEvent st tenantId event)
  else Except.error Err.unknownTenant

/-- Truthiness of the JS `limit` argument of `getEvents`: `null` (absent)
and `0` are falsy. -/
def limitTruthy : Option Nat → Bool
  | none => false
  | some 0 => false
  | some (_ + 1) => true

/-- tenantService.js `getEvents`: validate the tenant, then
`limit ? events.slice(0, limit) : [...events]`. -/
def getEvents (st : LogState) (tenantId : String) (limit : Option Nat) :
    Except Err (List Event) :=
  if isValidTenant tenantId then
    Except.ok
      (if limitTruthy limit then (st.events tenantId).take (limit.getD 0)
       else st.events tenantId)
  else Except.error Err.unknownTenant

/-- tenantService.js `getEventCount`: `0` for an invalid tenant, otherwise
the array length. -/
def getEventCount (st : LogState) (tenantId : String) : Nat :=
  if isValidTenant tenantId then (st.events tenantId).length else 0

/-- tenantService.js `getSupportedTenants`: a copy of the configured set. -/
def getSupportedTenants : List String := supportedTenants

end TenantService

namespace EventService

/-- eventService.js `sanitizeMessage`: `''` for non-strings, otherwise the
escape chain followed by `.trim()`. -/
def sanitizeMessage : JsValue → List Char
  | JsValue.vStr s => jsTrim (escapeHtml s)
  | JsValue.vOther => []

/-- eventService.js `createEvent`: validate the tenant, reject falsy or
non-string messages, reject messages longer than
`config.maxEventMessageLength`, then build the event with the trimmed
message and add it to the tenant store. -/
def createEvent (st : LogState) (tenantId : String) (message : JsValue) :
    Except Err (Event × LogState) :=
  if TenantService.isValidTenant tenantId then
    match message with
    | JsValue.vOther => Except.error Err.invalidMessage
    | JsValue.vStr s =>
      if s = [] then Except.error Err.invalidMessage
      else if maxEventMessageLength < s.length then
        Except.error Err.messageTooLong
      else
        let event : Event :=
          { id := st.nextId, tenant_id := tenantId,
            message := jsTrim s, timestamp := st.nextId }
        match TenantService.addEvent { st with nextId := st.nextId + 1 }
            tenantId event with
        | Except.ok st' => Except.ok (event, st')
        | Except.error e => Except.error e
  else Except.error Err.unknownTenant

/-- eventService.js `getEventsByTenant(tenantId, limit = 50)`: an omitted
`limit` defaults to `50`; the value is passed through to
`tenantService.getEvents`. -/
def getEventsByTenant (st : LogState) (tenantId : String)
    (limit : Option Nat) : Except Err (List Event) :=
  TenantService.getEvents st tenantId (some (limit.getD 50))

/-- The candidate passed to `validateEventData`: either a falsy value
(`null`/`undefined`) or an object whose `message` field is `m`. -/
inductive EventData where
  | absent
  | mk (message : JsValue)
deriving DecidableEq

/-- The `{ isValid, errors }` record returned by `validateEventData`. -/
structure ValidationResult where
  isValid : Bool
  errors : List String
deriving DecidableEq

/-- eventService.js `validateEventData`: early return for a falsy
candidate, then an `if / else if / else if` chain over the `message`
field. -/
def validateEventData (eventData : EventData) : ValidationResult :=
  match eventData with
  | EventData.absent =>
    { isValid := false, errors := ["Event data is required"] }
  | EventData.mk m =>
    let errors : List String :=
      match m with
      | JsValue.vOther => ["Message is required and must be a string"]
      | JsValue.vStr s =>
        if s = [] then ["Message is required and must be a string"]
        else if maxEventMessageLength < s.length then
          ["Message exceeds maximum length of 500 characters"]
        else if (jsTrim s).length = 0 then ["Message cannot be empty"]
        else []
    { isValid := errors.length = 0, errors := errors }

/-- eventService.js `getEventStats`: loop over the supported tenants
accumulating `totalEvents += count` and recording `tenantStats[t] = count`. -/
def getEventStats (st : LogState) : Nat × List (String × Nat) :=
  TenantService.getSupportedTenants.foldl
    (fun acc tenantId =>
      let count := TenantService.getEventCount st tenantId
      (acc.1 + count, acc.2 ++ [(tenantId, count)]))
    (0, [])

end EventService

namespace Controller

/-- eventController.js `createEvent` (the core creation pipeline, after the
excluded input-shape middleware): sanitize the raw message, then create the
event from the sanitized string. -/
def createEvent (st : LogState) (tenantId : String) (rawMessage : JsValue) :
    Except Err (Event × LogState) :=
  EventService.createEvent st tenantId
    (JsValue.vStr (EventService.sanitizeMessage rawMessage))

end Controller

/-- Sanitized-form predicate used by the spec claims: the string contains
no literal markup character, and every ampersand begins one of the six
entities introduced by the escape pass. -/
def entitySuffixes : List (List Char) :=
  [("amp;").toList, ("lt;").toList, ("gt;").toList,
   ("quot;").toList, ("#x27;").toList, ("#x2F;").toList]

/-- `wellEscaped l` holds when `l` has no literal markup characters and
every `&` starts an escape entity. -/
def wellEscaped : List Char → Bool
  | [] => true
  | c :: rest =>
    if c == '<' || c == '>' || c == '"' || c == '\'' || c == '/' then false
    else if c == '&' then
      entitySuffixes.any (fun p => p.isPrefixOf rest) && wellEscaped rest
    else wellEscaped rest

/-- The six characters rewritten by the escape pass. -/
def isMarkupChar (c : Char) : Bool :=
  c == '&' || c == '<' || c == '>' || c == '"' || c == '\'' || c == '/'

/-- The image of a single character under the escape chain. -/
def escUnit (c : Char) : List Char :=
  if c == '&' then entAmp
  else if c == '<' then entLt
  else if c == '>' then entGt
  else if c == '"' then entQuot
  else if c == '\'' then entApos
  else if c == '/' then entSlash
  else [c]

/-- The event built by the `n + 1`-st successful create for `tenant_a`
with message `"m"` starting from the initial state. -/
def mkEventA (n : Nat) : Event :=
  { id := n, tenant_id := "tenant_a", message := ['m'], timestamp := n }

/-- `n` successive `createEvent` calls for `tenant_a`, each with message
`"m"`, starting from the initial state. -/
def createIter : Nat → LogState
  | 0 => initState
  | n + 1 =>
    match EventService.createEvent (createIter n) "tenant_a"
        (JsValue.vStr ['m']) with
    | Except.ok p => p.2
    | Except.error _ => createIter n

/-- Successive `createEvent` calls for `tenant_a` with the given messages,
starting from the initial state. -/
def createSeq (msgs : List (List Char)) : LogState :=
  msgs.foldl
    (fun st m =>
      match EventService.createEvent st "tenant_a" (JsValue.vStr m) with
      | Except.ok p => p.2
      | Except.error _ => st)
    initState

/-- The messages carried by a successful `getEvents`-style result. -/
def okMessages : Except Err (List Event) → List (List Char)
  | Except.ok l => l.map Event.message
  | Except.error _ => []

/-- Concrete raw input used to witness the escaping claim. -/
def rawScript : JsValue := JsValue.vStr (("<script>x</script>").toList)

/-- The event produced by creating `rawScript` for `tenant_a` in the
initial state. -/
def eScript : Event :=
  { id := 0, tenant_id := "tenant_a",
    message := ("&lt;script&gt;x&lt;&#x2F;script&gt;").toList, timestamp := 0 }

/-- The state after creating `rawScript` for `tenant_a` in the initial
state. -/
def stScript : LogState :=
  { events := fun u => if u = "tenant_a" then [eScript] else [], nextId := 1 }

/-! ### Lemmas about the escape pass -/

theorem replaceAll_append (c : Char) (r : List Char) :
    ∀ xs ys, replaceAll c r (xs ++ ys) = replaceAll c r xs ++ replaceAll c r ys := by
  intro xs ys
  induction xs with
  | nil => rfl
  | cons x t ih => simp [replaceAll, ih]

theorem escapeHtml_append (xs ys : List Char) :
    escapeHtml (xs ++ ys) = escapeHtml xs ++ escapeHtml ys := by
  simp [escapeHtml, replaceAll_append]

theorem escapeHtml_singleton (c : Char) : escapeHtml [c] = escUnit c := by
  by_cases h1 : c = '&'
  · subst h1; decide
  by_cases h2 : c = '<'
  · subst h2; decide
  by_cases h3 : c = '>'
  · subst h3; decide
  by_cases h4 : c = '"'
  · subst h4; decide
  by_cases h5 : c = '\''
  · subst h5; decide
  by_cases h6 : c = '/'
  · subst h6; decide
  simp [escapeHtml, replaceAll, escUnit, h1, h2, h3, h4, h5, h6]

theorem escapeHtml_cons (c : Char) (s : List Char) :
    escapeHtml (c :: s) = escUnit c ++ escapeHtml s := by
  have h : c :: s = [c] ++ s := rfl
  rw [h, escapeHtml_append, escapeHtml_singleton]

theorem wellEscaped_escUnit_append (c : Char) (l : List Char) :
    wellEscaped (escUnit c ++ l) = wellEscaped l := by
  by_cases h1 : c = '&'
  · subst h1
    simp [escUnit, entAmp, wellEscaped, entitySuffixes, List.isPrefixOf]
  by_cases h2 : c = '<'
  · subst h2
    simp [escUnit, entLt, wellEscaped, entitySuffixes, List.isPrefixOf]
  by_cases h3 : c = '>'
  · subst h3
    simp [escUnit, entGt, wellEscaped, entitySuffixes, List.isPrefixOf]
  by_cases h4 : c = '"'
  · subst h4
    simp [escUnit, entQuot, wellEscaped, entitySuffixes, List.isPrefixOf]
  by_cases h5 : c = '\''
  · subst h5
    simp [escUnit, entApos, wellEscaped, entitySuffixes, List.isPrefixOf]
  by_cases h6 : c = '/'
  · subst h6
    simp [escUnit, entSlash, wellEscaped, entitySuffixes, List.isPrefixOf]
  simp [escUnit, h1, h2, h3, h4, h5, h6, wellEscaped]

theorem wellEscaped_escapeHtml (s : List Char) :
    wellEscaped (escapeHtml s) = true := by
  induction s with
  | nil => rfl
  | cons c t ih => rw [escapeHtml_cons, wellEscaped_escUnit_append]; exact ih

/-! ### Lemmas about trimming -/

theorem isJsWhitespace_not_markup (c : Char) (h : isJsWhitespace c = true) :
    isMarkupChar c = false := by
  have hm : c ∈ jsWhitespaceChars := by simpa [isJsWhitespace] using h
  have hall : ∀ d ∈ jsWhitespaceChars, isMarkupChar d = false := by decide
  exact hall c hm

theorem wellEscaped_cons_not_markup (c : Char) (l : List Char)
    (h : isMarkupChar c = false) : wellEscaped (c :: l) = wellEscaped l := by
  simp only [isMarkupChar, Bool.or_eq_false_iff] at h
  obtain ⟨⟨⟨⟨⟨h1, h2⟩, h3⟩, h4⟩, h5⟩, h6⟩ := h
  simp [wellEscaped, h1, h2, h3, h4, h5, h6]

theorem wellEscaped_trimLeft (l : List Char) (h : wellEscaped l = true) :
    wellEscaped (trimLeft l) = true := by
  induction l with
  | nil => exact h
  | cons c t ih =>
    by_cases hc : isJsWhitespace c = true
    · have hmk := isJsWhitespace_not_markup c hc
      rw [wellEscaped_cons_not_markup c t hmk] at h
      simpa [trimLeft, List.dropWhile_cons, hc] using ih h
    · simpa [trimLeft, List.dropWhile_cons, hc] using h

theorem isPrefixOf_append_ws (p : List Char) :
    ∀ (a w : List Char), (∀ c ∈ p, isJsWhitespace c = false) →
      (∀ c ∈ w, isJsWhitespace c = true) →
      p.isPrefixOf (a ++ w) = true → p.isPrefixOf a = true := by
  induction p with
  | nil => intro a w _ _ _; simp [List.isPrefixOf]
  | cons x p' ih =>
    intro a w hp hw h
    cases a with
    | nil =>
      cases w with
      | nil => simp [List.isPrefixOf] at h
      | cons y w' =>
        simp only [List.nil_append, List.isPrefixOf, Bool.and_eq_true,
          beq_iff_eq] at h
        have hx : isJsWhitespace x = false := hp x (by simp)
        have hy : isJsWhitespace y = true := hw y (by simp)
        rw [h.1] at hx
        rw [hx] at hy
        exact absurd hy (by simp)
    | cons b a' =>
      simp only [List.cons_append, List.isPrefixOf, Bool.and_eq_true] at h ⊢
      exact ⟨h.1, ih a' w (fun c hc => hp c (by simp [hc])) hw h.2⟩

theorem wellEscaped_append_ws (u w : List Char)
    (hw : ∀ c ∈ w, isJsWhitespace c = true)
    (h : wellEscaped (u ++ w) = true) : wellEscaped u = true := by
  induction u with
  | nil => rfl
  | cons c u' ih =>
    rw [List.cons_append] at h
    by_cases hlit : (c == '<' || c == '>' || c == '"' || c == '\'' || c == '/') = true
    · rw [wellEscaped] at h
      rw [hlit] at h
      simp at h
    · by_cases hamp : (c == '&') = true
      · rw [wellEscaped, if_neg hlit, if_pos hamp] at h ⊢
        simp only [Bool.and_eq_true] at h ⊢
        obtain ⟨hany, hrest⟩ := h
        constructor
        · rw [List.any_eq_true] at hany ⊢
          obtain ⟨p, hpmem, hpref⟩ := hany
          refine ⟨p, hpmem, ?_⟩
          have hnws : ∀ q ∈ entitySuffixes, ∀ c ∈ q, isJsWhitespace c = false := by
            decide
          exact isPrefixOf_append_ws p u' w (hnws p hpmem) hw hpref
        · exact ih hrest
      · rw [wellEscaped, if_neg hlit, if_neg hamp] at h ⊢
        exact ih h

theorem trimRight_decomp (l : List Char) :
    ∃ w, l = trimRight l ++ w ∧ ∀ c ∈ w, isJsWhitespace c = true := by
  refine ⟨(l.reverse.takeWhile isJsWhitespace).reverse, ?_, ?_⟩
  · have h2 : l.reverse.reverse =
        (l.reverse.takeWhile isJsWhitespace ++
          l.reverse.dropWhile isJsWhitespace).reverse := by
      rw [List.takeWhile_append_dropWhile]
    rw [List.reverse_reverse, List.reverse_append] at h2
    exact h2
  · intro c hc
    rw [List.mem_reverse] at hc
    exact List.mem_takeWhile_imp hc

theorem wellEscaped_trimRight (l : List Char) (h : wellEscaped l = true) :
    wellEscaped (trimRight l) = true := by
  obtain ⟨w, hdec, hw⟩ := trimRight_decomp l
  rw [hdec] at h
  exact wellEscaped_append_ws (trimRight l) w hw h

theorem wellEscaped_jsTrim (l : List Char) (h : wellEscaped l = true) :
    wellEscaped (jsTrim l) = true :=
  wellEscaped_trimRight (trimLeft l) (wellEscaped_trimLeft l h)

theorem sanitizeMessage_wellEscaped (m : JsValue) :
    wellEscaped (EventService.sanitizeMessage m) = true := by
  cases m with
  | vStr s =>
    exact wellEscaped_jsTrim (escapeHtml s) (wellEscaped_escapeHtml s)
  | vOther => rfl

theorem dropWhile_ws_idem (l : List Char) :
    (l.dropWhile isJsWhitespace).dropWhile isJsWhitespace =
      l.dropWhile isJsWhitespace := by
  induction l with
  | nil => rfl
  | cons c t ih =>
    by_cases h : isJsWhitespace c = true <;>
      simp [List.dropWhile_cons, h, ih]

theorem trimRight_idem (l : List Char) : trimRight (trimRight l) = trimRight l := by
  simp [trimRight, List.reverse_reverse, dropWhile_ws_idem]

theorem trimLeft_head_not_ws (l : List Char) :
    ∀ c r, trimLeft l = c :: r → isJsWhitespace c = false := by
  induction l with
  | nil => intro c r h; simp [trimLeft] at h
  | cons x t ih =>
    intro c r h
    by_cases hx : isJsWhitespace x = true
    · rw [trimLeft, List.dropWhile_cons, if_pos hx] at h
      exact ih c r h
    · rw [trimLeft, List.dropWhile_cons, if_neg hx] at h
      cases h
      simpa using hx

theorem trimLeft_eq_self (l : List Char)
    (h : ∀ c r, l = c :: r → isJsWhitespace c = false) : trimLeft l = l := by
  cases l with
  | nil => rfl
  | cons c t =>
    rw [trimLeft, List.dropWhile_cons, if_neg]
    simp [h c t rfl]

theorem jsTrim_idem (l : List Char) : jsTrim (jsTrim l) = jsTrim l := by
  have hhead : ∀ c r, jsTrim l = c :: r → isJsWhitespace c = false := by
    intro c r h
    obtain ⟨w, hdec, _⟩ := trimRight_decomp (trimLeft l)
    rw [jsTrim] at h
    rw [h] at hdec
    exact trimLeft_head_not_ws l c (r ++ w) hdec
  rw [jsTrim, trimLeft_eq_self (jsTrim l) hhead]
  exact trimRight_idem (trimLeft l)

/-! ### Characterising the empty trim -/

theorem trimRight_eq_nil_iff (l : List Char) :
    trimRight l = [] ↔ ∀ c ∈ l, isJsWhitespace c = true := by
  rw [trimRight, List.reverse_eq_nil_iff, List.dropWhile_eq_nil_iff]
  constructor
  · intro h c hc; exact h c (by simpa using hc)
  · intro h c hc; exact h c (by simpa using hc)

theorem mem_of_mem_trimLeft (l : List Char) (c : Char)
    (h : c ∈ trimLeft l) : c ∈ l :=
  (List.dropWhile_sublist isJsWhitespace).mem h

theorem jsTrim_eq_nil_iff (l : List Char) :
    jsTrim l = [] ↔ ∀ c ∈ l, isJsWhitespace c = true := by
  rw [jsTrim, trimRight_eq_nil_iff]
  constructor
  · intro h c hc
    have hsplit := List.takeWhile_append_dropWhile isJsWhitespace l
    rw [← hsplit, List.mem_append] at hc
    rcases hc with hc | hc
    · exact List.mem_takeWhile_imp hc
    · exact h c hc
  · intro h c hc
    exact h c (mem_of_mem_trimLeft l c hc)

theorem escUnit_allWs_iff (c : Char) :
    (∀ d ∈ escUnit c, isJsWhitespace d = true) ↔ isJsWhitespace c = true := by
  by_cases h1 : c = '&'
  · subst h1; decide
  by_cases h2 : c = '<'
  · subst h2; decide
  by_cases h3 : c = '>'
  · subst h3; decide
  by_cases h4 : c = '"'
  · subst h4; decide
  by_cases h5 : c = '\''
  · subst h5; decide
  by_cases h6 : c = '/'
  · subst h6; decide
  simp [escUnit, h1, h2, h3, h4, h5, h6]

theorem escapeHtml_allWs_iff (s : List Char) :
    (∀ c ∈ escapeHtml s, isJsWhitespace c = true) ↔
      (∀ c ∈ s, isJsWhitespace c = true) := by
  induction s with
  | nil => simp [escapeHtml, replaceAll]
  | cons c t ih =>
    rw [escapeHtml_cons]
    simp only [List.mem_append, List.mem_cons]
    constructor
    · intro h
      intro d hd
      rcases hd with rfl | hd
      · exact (escUnit_allWs_iff d).mp (fun e he => h e (Or.inl he))
      · exact ih.mp (fun e he => h e (Or.inr he)) d hd
    · intro h d hd
      rcases hd with hd | hd
      · exact (escUnit_allWs_iff c).mpr (h c (Or.inl rfl)) d hd
      · exact ih.mpr (fun e he => h e (Or.inr he)) d hd

theorem sanitize_vStr_eq_nil_iff (s : List Char) :
    EventService.sanitizeMessage (JsValue.vStr s) = [] ↔ jsTrim s = [] := by
  show jsTrim (escapeHtml s) = [] ↔ jsTrim s = []
  rw [jsTrim_eq_nil_iff, jsTrim_eq_nil_iff]
  exact escapeHtml_allWs_iff s

/-! ### Lemmas about the tenant store operations -/

theorem addEvent_ok (st : LogState) (t : String) (e : Event)
    (hT : TenantService.isValidTenant t = true) :
    TenantService.addEvent st t e =
      Except.ok (TenantService.appendEvent st t e) := by
  simp [TenantService.addEvent, hT]

theorem appendEvent_events_self (st : LogState) (t : String) (e : Event) :
    (TenantService.appendEvent st t e).events t =
      (if 1000 < (e :: st.events t).length then (e :: st.events t).take 1000
       else e :: st.events t) := by
  simp [TenantService.appendEvent, TenantService.MAX_EVENTS_PER_TENANT]

theorem appendEvent_events_other (st : LogState) (t u : String) (e : Event)
    (h : u ≠ t) :
    (TenantService.appendEvent st t e).events u = st.events u := by
  simp [TenantService.appendEvent, h]

theorem appendEvent_length (st : LogState) (t : String) (e : Event) :
    ((TenantService.appendEvent st t e).events t).length =
      min 1000 ((st.events t).length + 1) := by
  rw [appendEvent_events_self]
  by_cases h : 1000 < (e :: st.events t).length
  · rw [if_pos h, List.length_take, List.length_cons]
  · rw [if_neg h, List.length_cons]
    rw [List.length_cons] at h
    exact (Nat.min_eq_right (Nat.le_of_not_lt h)).symm

theorem appendEvent_head (st : LogState) (t : String) (e : Event) :
    ((TenantService.appendEvent st t e).events t).head? = some e := by
  rw [appendEvent_events_self]
  by_cases h : 1000 < (e :: st.events t).length
  · rw [if_pos h]
    show ((e :: st.events t).take (999 + 1)).head? = some e
    rw [List.take_succ_cons, List.head?_cons]
  · rw [if_neg h, List.head?_cons]

theorem createEvent_ok (st : LogState) (t : String) (s : List Char)
    (hT : TenantService.isValidTenant t = true) (hne : s ≠ [])
    (hlen : s.length ≤ maxEventMessageLength) :
    EventService.createEvent st t (JsValue.vStr s) =
      Except.ok
        ({ id := st.nextId, tenant_id := t, message := jsTrim s,
           timestamp := st.nextId },
         TenantService.appendEvent { st with nextId := st.nextId + 1 } t
           { id := st.nextId, tenant_id := t, message := jsTrim s,
             timestamp := st.nextId }) := by
  rw [EventService.createEvent, if_pos hT]
  rw [if_neg hne, if_neg (Nat.not_lt.mpr hlen)]
  dsimp only
  rw [addEvent_ok _ _ _ hT]

theorem appendEvent_nextId (st : LogState) (t : String) (e : Event) :
    (TenantService.appendEvent st t e).nextId = st.nextId := rfl

theorem mkEventA_range_succ (n : Nat) :
    ((List.range (n + 1)).reverse).map mkEventA =
      mkEventA n :: ((List.range n).reverse).map mkEventA := by
  rw [List.range_succ, List.reverse_append]
  rfl

theorem createIter_spec : ∀ n : Nat,
    (createIter n).nextId = n ∧
    (createIter n).events "tenant_a" =
      (((List.range n).reverse).map mkEventA).take 1000 ∧
    ∀ u, u ≠ "tenant_a" → (createIter n).events u = [] := by
  intro n
  induction n with
  | zero => exact ⟨rfl, rfl, fun u _ => rfl⟩
  | succ n ih =>
    obtain ⟨hid, hev, hoth⟩ := ih
    have htrim : jsTrim ['m'] = ['m'] := by decide
    have hC := createEvent_ok (createIter n) "tenant_a" ['m']
      (by decide) (by decide) (by decide)
    rw [htrim, hid] at hC
    have hIt : createIter (n + 1) =
        TenantService.appendEvent
          { createIter n with nextId := n + 1 } "tenant_a" (mkEventA n) := by
      have hdef : createIter (n + 1) =
          (match EventService.createEvent (createIter n) "tenant_a"
              (JsValue.vStr ['m']) with
          | Except.ok p => p.2
          | Except.error _ => createIter n) := rfl
      rw [hdef, hC]
      rfl
    have hlenR : (((List.range n).reverse).map mkEventA).length = n := by
      rw [List.length_map, List.length_reverse, List.length_range]
    have hlenTake :
        ((((List.range n).reverse).map mkEventA).take 1000).length =
          min 1000 n := by
      rw [List.length_take, hlenR]
    refine ⟨?_, ?_, ?_⟩
    · rw [hIt, appendEvent_nextId]
    · rw [hIt, appendEvent_events_self]
      have hevs :
          ({ createIter n with nextId := n + 1 } : LogState).events
            "tenant_a" = (createIter n).events "tenant_a" := rfl
      rw [hevs, hev, mkEventA_range_succ]
      by_cases hn : n < 1000
      · have h1 : ¬ 1000 <
            (mkEventA n ::
              ((((List.range n).reverse).map mkEventA).take 1000)).length := by
          rw [List.length_cons, hlenTake, Nat.min_eq_right (Nat.le_of_lt hn)]
          omega
        rw [if_neg h1]
        rw [List.take_of_length_le (by rw [hlenR]; exact Nat.le_of_lt hn)]
        rw [List.take_of_length_le
          (by rw [List.length_cons, hlenR]; omega)]
      · have hn' : 1000 ≤ n := Nat.le_of_not_lt hn
        have h1 : 1000 <
            (mkEventA n ::
              ((((List.range n).reverse).map mkEventA).take 1000)).length := by
          rw [List.length_cons, hlenTake, Nat.min_eq_left hn']
          omega
        rw [if_pos h1]
        show (mkEventA n ::
            ((((List.range n).reverse).map mkEventA).take 1000)).take (999 + 1) =
          (mkEventA n :: ((List.range n).reverse).map mkEventA).take (999 + 1)
        rw [List.take_succ_cons, List.take_succ_cons, List.take_take,
          Nat.min_eq_left (by omega)]
    · intro u hu
      rw [hIt, appendEvent_events_other _ _ _ _ hu]
      exact hoth u hu

theorem createIter_count (n : Nat) :
    TenantService.getEventCount (createIter n) "tenant_a" = min 1000 n := by
  rw [TenantService.getEventCount, if_pos (by decide)]
  rw [(createIter_spec n).2.1, List.length_take, List.length_map,
    List.length_reverse, List.length_range]

theorem createIter1001_events :
    (createIter 1001).events "tenant_a" =
      ((List.range' 1 1000).reverse).map mkEventA := by
  rw [(createIter_spec 1001).2.1]
  have h0 : List.range 1001 = 0 :: List.range' 1 1000 := by
    rw [List.range_eq_range']
    exact List.range'_succ 0 1000 1
  rw [h0, List.reverse_cons, List.map_append]
  have hlen : (((List.range' 1 1000).reverse).map mkEventA).length = 1000 := by
    rw [List.length_map, List.length_reverse, List.length_range']
  have htk := @List.take_append Event
    (((List.range' 1 1000).reverse).map mkEventA)
    ((([0] : List Nat)).map mkEventA) 0
  rw [hlen] at htk
  simp only [Nat.add_zero, List.take_zero, List.append_nil] at htk
  simp only [List.map_cons, List.map_nil]
  exact htk

theorem mkEventA0_not_mem_createIter1001 :
    mkEventA 0 ∉ (createIter 1001).events "tenant_a" := by
  rw [createIter1001_events]
  intro h
  rw [List.mem_map] at h
  obtain ⟨i, hmem, heq⟩ := h
  rw [List.mem_reverse, List.mem_range'_1] at hmem
  have hi : i = 0 := congrArg Event.id heq
  omega

/-- Claim C4: the per-tenant log never exceeds the cap of 1000: an append
into a valid tenant's log yields exactly `min 1000 (length + 1)` entries
(the oldest entries are dropped within the same append) and leaves other
tenants untouched; after 1001 successful creates for `tenant_a` the count
is 1000 and the first-created event, present after the first create, is no
longer returned by `getEvents`. -/
theorem addEvent_caps_log :
    (∀ (st : LogState) (t : String) (e : Event),
      TenantService.isValidTenant t = true →
      ∃ st', TenantService.addEvent st t e = Except.ok st' ∧
        ((st'.events) t).length = min 1000 (((st.events) t).length + 1) ∧
        ∀ u, u ≠ t → (st'.events) u = (st.events) u) ∧
    TenantService.getEventCount (createIter 1001) "tenant_a" = 1000 ∧
    mkEventA 0 ∈ (createIter 1).events "tenant_a" ∧
    ∃ l, TenantService.getEvents (createIter 1001) "tenant_a" none =
        Except.ok l ∧ mkEventA 0 ∉ l := by
  refine ⟨?_, ?_, ?_, ?_⟩
  · intro st t e hT
    exact ⟨TenantService.appendEvent st t e, addEvent_ok st t e hT,
      appendEvent_length st t e,
      fun u hu => appendEvent_events_other st t u e hu⟩
  · rw [createIter_count]
    omega
  · rw [(createIter_spec 1).2.1]
    decide
  · refine ⟨(createIter 1001).events "tenant_a", ?_,
      mkEventA0_not_mem_createIter1001⟩
    rw [TenantService.getEvents, if_pos (by decide)]
    rfl

/-- Witness for C4 at the initial state and `tenant_a`. -/
theorem addEvent_caps_log_witness :
    TenantService.isValidTenant "tenant_a" = true ∧
    ∃ st', TenantService.addEvent initState "tenant_a" (mkEventA 0) =
        Except.ok st' ∧
      ((st'.events) "tenant_a").length =
        min 1000 (((initState.events) "tenant_a").length + 1) ∧
      ∀ u, u ≠ "tenant_a" → (st'.events) u = (initState.events) u :=
  ⟨by decide, addEvent_caps_log.1 initState "tenant_a" (mkEventA 0) (by decide)⟩

/-- Claim C5: a successful create puts the new event at the head of the
tenant's log (newest-first); after `N ≤ 1000` creates the count is `N` and
the head of `getEvents` with limit `N` is the most recent event; in the
concrete scenario, creating `"m1","m2","m3"` for `tenant_a` gives
`list("tenant_a", 2) = ["m3","m2"]` by message, `count("tenant_a") = 3`
and `count("tenant_b") = 0`. -/
theorem create_newest_first :
    (∀ (st : LogState) (t : String) (s : List Char),
      TenantService.isValidTenant t = true → s ≠ [] →
      s.length ≤ maxEventMessageLength →
      ∃ e st', EventService.createEvent st t (JsValue.vStr s) =
          Except.ok (e, st') ∧ ((st'.events) t).head? = some e) ∧
    (∀ n : Nat, n ≤ 1000 →
      TenantService.getEventCount (createIter n) "tenant_a" = n) ∧
    (∀ n : Nat, 1 ≤ n → n ≤ 1000 →
      ∃ l, TenantService.getEvents (createIter n) "tenant_a" (some n) =
          Except.ok l ∧ l.head? = some (mkEventA (n - 1))) ∧
    (okMessages (EventService.getEventsByTenant
        (createSeq [("m1").toList, ("m2").toList, ("m3").toList])
        "tenant_a" (some 2)) = [("m3").toList, ("m2").toList] ∧
      TenantService.getEventCount
        (createSeq [("m1").toList, ("m2").toList, ("m3").toList])
        "tenant_a" = 3 ∧
      TenantService.getEventCount
        (createSeq [("m1").toList, ("m2").toList, ("m3").toList])
        "tenant_b" = 0) := by
  refine ⟨?_, ?_, ?_, by decide, by decide, by decide⟩
  · intro st t s hT hne hlen
    exact ⟨_, _, createEvent_ok st t s hT hne hlen, appendEvent_head _ _ _⟩
  · intro n hn
    rw [createIter_count]
    omega
  · intro n h1 h100
    cases n with
    | zero => omega
    | succ m =>
      refine ⟨(((createIter (m + 1)).events) "tenant_a").take (m + 1), ?_, ?_⟩
      · rw [TenantService.getEvents, if_pos (by decide)]
        rfl
      · rw [(createIter_spec (m + 1)).2.1, mkEventA_range_succ]
        have hcap : ((mkEventA m ::
            ((List.range m).reverse).map mkEventA).take 1000).take (m + 1) =
            mkEventA m ::
              ((((List.range m).reverse).map mkEventA).take 999).take m := by
          show ((mkEventA m ::
            ((List.range m).reverse).map mkEventA).take (999 + 1)).take (m + 1) = _
          rw [List.take_succ_cons, List.take_succ_cons]
        rw [hcap, List.head?_cons]
        simp

/-- Witness for C5's head property at a concrete create. -/
theorem create_newest_first_witness :
    ∃ e st', EventService.createEvent initState "tenant_a"
        (JsValue.vStr ['h', 'i']) = Except.ok (e, st') ∧
      ((st'.events) "tenant_a").head? = some e :=
  create_newest_first.1 initState "tenant_a" ['h', 'i']
    (by decide) (by decide) (by decide)

/-- Claim C7: for a valid tenant and a positive limit, `getEventsByTenant`
returns the newest-first prefix of the stored log of length at most the
limit (clamped to the number of stored events); an unspecified limit
behaves as limit 50. -/
theorem getEventsByTenant_limit_spec (st : LogState) (t : String)
    (hT : TenantService.isValidTenant t = true) :
    (∀ n : Nat, 1 ≤ n →
      EventService.getEventsByTenant st t (some n) =
        Except.ok (((st.events) t).take n) ∧
      (((st.events) t).take n).length = min n ((st.events) t).length) ∧
    EventService.getEventsByTenant st t none =
      TenantService.getEvents st t (some 50) ∧
    EventService.getEventsByTenant st t none =
      Except.ok (((st.events) t).take 50) ∧
    (((st.events) t).take 50).length ≤ 50 := by
  refine ⟨?_, rfl, ?_, ?_⟩
  · intro n hn
    cases n with
    | zero => omega
    | succ m =>
      refine ⟨?_, List.length_take _ _⟩
      rw [EventService.getEventsByTenant, TenantService.getEvents, if_pos hT]
      rfl
  · rw [EventService.getEventsByTenant, TenantService.getEvents, if_pos hT]
    rfl
  · rw [List.length_take]
    omega

/-- Witness for C7 at the initial state and `tenant_a` with limit 2. -/
theorem getEventsByTenant_limit_spec_witness :
    (∀ n : Nat, 1 ≤ n →
      EventService.getEventsByTenant initState "tenant_a" (some n) =
        Except.ok (((initState.events) "tenant_a").take n) ∧
      (((initState.events) "tenant_a").take n).length =
        min n ((initState.events) "tenant_a").length) ∧
    EventService.getEventsByTenant initState "tenant_a" none =
      TenantService.getEvents initState "tenant_a" (some 50) ∧
    EventService.getEventsByTenant initState "tenant_a" none =
      Except.ok (((initState.events) "tenant_a").take 50) ∧
    (((initState.events) "tenant_a").take 50).length ≤ 50 :=
  getEventsByTenant_limit_spec initState "tenant_a" (by decide)

theorem getEventStats_foldl (st : LogState) :
    ∀ (l : List String) (a : Nat) (b : List (String × Nat)),
      (l.foldl (fun acc tenantId =>
          let count := TenantService.getEventCount st tenantId
          (acc.1 + count, acc.2 ++ [(tenantId, count)])) (a, b)) =
        (a + (l.map (fun u => TenantService.getEventCount st u)).sum,
         b ++ l.map (fun u => (u, TenantService.getEventCount st u))) := by
  intro l
  induction l with
  | nil => intro a b; simp
  | cons x xs ih =>
    intro a b
    rw [List.foldl_cons]
    dsimp only
    rw [ih]
    simp [Nat.add_assoc]

/-- Claim C8: `getEventStats` reports a `totalEvents` equal to the sum of
the per-tenant counts it reports, and its per-tenant table assigns to each
cataloged tenant exactly its `getEventCount`. -/
theorem getEventStats_sums_counts (st : LogState) :
    (EventService.getEventStats st).1 =
      ((EventService.getEventStats st).2.map Prod.snd).sum ∧
    (EventService.getEventStats st).2 =
      TenantService.getSupportedTenants.map
        (fun t => (t, TenantService.getEventCount st t)) := by
  have h := getEventStats_foldl st TenantService.getSupportedTenants 0 []
  constructor
  · rw [EventService.getEventStats, h]
    simp [List.map_map]
    rfl
  · rw [EventService.getEventStats, h]
    simp

/-- Claim C9: calling the log's list operation with limit 0 returns all
stored events for a valid tenant (0 is falsy, so the limit is treated as
unset), not an empty sequence. -/
theorem getEvents_zero_limit_returns_all (st : LogState) (t : String)
    (hT : TenantService.isValidTenant t = true) :
    TenantService.getEvents st t (some 0) = Except.ok ((st.events) t) := by
  rw [TenantService.getEvents, if_pos hT]
  rfl

/-- Witness for C9 on a state holding one event: limit 0 returns the whole
(non-empty) log. -/
theorem getEvents_zero_limit_returns_all_witness :
    TenantService.getEvents (createIter 1) "tenant_a" (some 0) =
      Except.ok (((createIter 1).events) "tenant_a") ∧
    ((createIter 1).events) "tenant_a" ≠ [] :=
  ⟨getEvents_zero_limit_returns_all (createIter 1) "tenant_a" (by decide),
    by decide⟩

/-- Claim C2: for a valid tenant the creation pipeline fails with
`InvalidMessage` exactly when the raw message is absent, not a string, or
empty after trimming; in particular a whitespace-only raw message is
rejected, and on this error no event/state is produced (the result carries
no state). -/
theorem create_invalidMessage_iff (st : LogState) (t : String) (raw : JsValue)
    (hT : TenantService.isValidTenant t = true) :
    Controller.createEvent st t raw = Except.error Err.invalidMessage ↔
      (raw = JsValue.vOther ∨ ∃ s, raw = JsValue.vStr s ∧ jsTrim s = []) := by
  cases raw with
  | vOther =>
    constructor
    · intro _
      exact Or.inl rfl
    · intro _
      show EventService.createEvent st t
        (JsValue.vStr (EventService.sanitizeMessage JsValue.vOther)) = _
      rw [EventService.createEvent, if_pos hT]
      rfl
  | vStr s =>
    constructor
    · intro h
      right
      refine ⟨s, rfl, ?_⟩
      rw [← sanitize_vStr_eq_nil_iff]
      by_contra hne
      have hC : Controller.createEvent st t (JsValue.vStr s) =
          EventService.createEvent st t
            (JsValue.vStr (EventService.sanitizeMessage (JsValue.vStr s))) :=
        rfl
      rw [hC] at h
      by_cases hlen : maxEventMessageLength <
          (EventService.sanitizeMessage (JsValue.vStr s)).length
      · rw [EventService.createEvent, if_pos hT] at h
        dsimp only at h
        rw [if_neg hne, if_pos hlen] at h
        exact absurd h (by simp)
      · rw [createEvent_ok st t _ hT hne (Nat.not_lt.mp hlen)] at h
        exact absurd h (by simp)
    · intro h
      rcases h with h | ⟨s', hs', htrim⟩
      · exact absurd h (by simp)
      · cases hs'
        have hnil : EventService.sanitizeMessage (JsValue.vStr s) = [] :=
          (sanitize_vStr_eq_nil_iff s).mpr htrim
        show EventService.createEvent st t
          (JsValue.vStr (EventService.sanitizeMessage (JsValue.vStr s))) = _
        rw [hnil, EventService.createEvent, if_pos hT]
        rfl

/-- Witness for C2: a whitespace-only raw message for `tenant_a` is
rejected with `InvalidMessage`. -/
theorem create_invalidMessage_iff_witness :
    Controller.createEvent initState "tenant_a"
        (JsValue.vStr [' ', ' ', ' ']) = Except.error Err.invalidMessage ↔
      (JsValue.vStr [' ', ' ', ' '] = JsValue.vOther ∨
        ∃ s, JsValue.vStr [' ', ' ', ' '] = JsValue.vStr s ∧ jsTrim s = []) :=
  create_invalidMessage_iff initState "tenant_a"
    (JsValue.vStr [' ', ' ', ' ']) (by decide)

set_option maxRecDepth 8000 in
/-- Counterexample to claim C6 as stated: a raw message of 101 ampersands
has untrimmed length 101 ≤ 500, yet the creation pipeline rejects it with
`MessageTooLong` (escaping expands it to 505 characters before the length
check), so the failure is not "exactly when the untrimmed input length
exceeds 500". -/
theorem create_messageTooLong_within_500 :
    Controller.createEvent initState "tenant_a"
        (JsValue.vStr (List.replicate 101 '&')) =
      Except.error Err.messageTooLong ∧
    (List.replicate 101 '&').length ≤ maxEventMessageLength :=
  ⟨by rfl, by decide⟩

/-- Claim C6 (amended): for a valid tenant, the creation pipeline fails
with `MessageTooLong` exactly when the sanitized message — the raw input
escaped and then trimmed — exceeds 500 characters; the length check runs
after escaping and trimming, so an over-500 input that trims within the
bound is accepted while an under-500 input whose escaping expands past the
bound is rejected. -/
theorem create_messageTooLong_iff_sanitized (st : LogState) (t : String)
    (raw : JsValue) (hT : TenantService.isValidTenant t = true) :
    Controller.createEvent st t raw = Except.error Err.messageTooLong ↔
      maxEventMessageLength < (EventService.sanitizeMessage raw).length := by
  have hC : Controller.createEvent st t raw =
      EventService.createEvent st t
        (JsValue.vStr (EventService.sanitizeMessage raw)) := rfl
  rw [hC]
  by_cases hne : EventService.sanitizeMessage raw = []
  · rw [EventService.createEvent, if_pos hT]
    dsimp only
    rw [if_pos hne, hne]
    simp
  · by_cases hlen : maxEventMessageLength <
        (EventService.sanitizeMessage raw).length
    · rw [EventService.createEvent, if_pos hT]
      dsimp only
      rw [if_neg hne, if_pos hlen]
      simp [hlen]
    · rw [createEvent_ok st t _ hT hne (Nat.not_lt.mp hlen)]
      simp [hlen]

/-- Witness for the amended C6 at the 101-ampersand input. -/
theorem create_messageTooLong_iff_sanitized_witness :
    Controller.createEvent initState "tenant_a"
        (JsValue.vStr (List.replicate 101 '&')) =
      Except.error Err.messageTooLong ↔
      maxEventMessageLength <
        (EventService.sanitizeMessage
          (JsValue.vStr (List.replicate 101 '&'))).length :=
  create_messageTooLong_iff_sanitized initState "tenant_a"
    (JsValue.vStr (List.replicate 101 '&')) (by decide)

/-- Claim C1: whenever the creation pipeline succeeds, the stored message
(returned event, which also sits at the head of the tenant's log) contains
no literal `<`, `>`, `"`, `'` or `/` and every `&` begins an entity
introduced by the escape pass (ampersand escaped first). -/
theorem create_stores_wellEscaped_message (st : LogState) (t : String)
    (raw : JsValue) (e : Event) (st' : LogState)
    (h : Controller.createEvent st t raw = Except.ok (e, st')) :
    wellEscaped e.message = true ∧ ((st'.events) t).head? = some e := by
  have hT : TenantService.isValidTenant t = true := by
    by_contra hT
    have hbad : Controller.createEvent st t raw =
        Except.error Err.unknownTenant := by
      show EventService.createEvent st t
        (JsValue.vStr (EventService.sanitizeMessage raw)) = _
      rw [EventService.createEvent, if_neg hT]
    rw [hbad] at h
    exact absurd h (by simp)
  have hne : EventService.sanitizeMessage raw ≠ [] := by
    intro hnil
    have hbad : Controller.createEvent st t raw =
        Except.error Err.invalidMessage := by
      show EventService.createEvent st t
        (JsValue.vStr (EventService.sanitizeMessage raw)) = _
      rw [hnil, EventService.createEvent, if_pos hT]
      rfl
    rw [hbad] at h
    exact absurd h (by simp)
  have hlen : (EventService.sanitizeMessage raw).length ≤
      maxEventMessageLength := by
    by_contra hlen
    have hbad : Controller.createEvent st t raw =
        Except.error Err.messageTooLong := by
      show EventService.createEvent st t
        (JsValue.vStr (EventService.sanitizeMessage raw)) = _
      rw [EventService.createEvent, if_pos hT]
      dsimp only
      rw [if_neg hne, if_pos (Nat.not_le.mp hlen)]
    rw [hbad] at h
    exact absurd h (by simp)
  have hC : Controller.createEvent st t raw =
      EventService.createEvent st t
        (JsValue.vStr (EventService.sanitizeMessage raw)) := rfl
  rw [hC, createEvent_ok st t _ hT hne hlen] at h
  rw [Except.ok.injEq, Prod.mk.injEq] at h
  obtain ⟨he, hst⟩ := h
  constructor
  · rw [← he]
    exact wellEscaped_jsTrim _ (sanitizeMessage_wellEscaped raw)
  · rw [← hst, ← he]
    exact appendEvent_head _ _ _

/-- Witness for C1 at `create(tenant_a, "<script>x</script>")`. -/
theorem create_stores_wellEscaped_message_witness :
    wellEscaped eScript.message = true ∧
    ((stScript.events) "tenant_a").head? = some eScript :=
  create_stores_wellEscaped_message initState "tenant_a" rawScript
    eScript stScript (by rfl)

set_option maxRecDepth 8000 in
/-- Counterexample to claim C3 as stated: a message of 501 spaces violates
both the length bound and post-trim non-emptiness, yet `validateEventData`
reports only the length error — the checks sit in an `if / else if` chain,
so not all applicable errors are collected. -/
theorem validateEventData_spaces501_single_error :
    EventService.validateEventData
        (EventService.EventData.mk (JsValue.vStr (List.replicate 501 ' '))) =
      { isValid := false,
        errors := ["Message exceeds maximum length of 500 characters"] } ∧
    maxEventMessageLength < (List.replicate 501 ' ').length ∧
    jsTrim (List.replicate 501 ' ') = [] := by
  refine ⟨by decide, by decide, ?_⟩
  rw [jsTrim_eq_nil_iff]
  intro c hc
  rw [List.eq_of_mem_replicate hc]
  decide

set_option maxRecDepth 8000 in
/-- Claim C3 (amended): `validateEventData` is pure but short-circuits: the
message-presence, length and post-trim-emptiness checks form an
`if / else if` chain, so the errors sequence holds at most the first
applicable error (and `isValid` holds exactly when it is empty);
`validate({message: "a"*501})` still returns invalid with the
length-exceeded error. -/
theorem validateEventData_first_error_only :
    (∀ d : EventService.EventData,
      (EventService.validateEventData d).errors.length ≤ 1 ∧
      ((EventService.validateEventData d).isValid = true ↔
        (EventService.validateEventData d).errors = [])) ∧
    EventService.validateEventData
        (EventService.EventData.mk (JsValue.vStr (List.replicate 501 'a'))) =
      { isValid := false,
        errors := ["Message exceeds maximum length of 500 characters"] } := by
  constructor
  · intro d
    cases d with
    | absent => exact ⟨by decide, by decide⟩
    | mk m =>
      cases m with
      | vOther => exact ⟨by decide, by decide⟩
      | vStr s =>
        rw [EventService.validateEventData]
        dsimp only
        split_ifs <;> simp
  · decide

/-- Claim C10: `sanitizeMessage` is total: every non-string input yields
the empty string, and every string input yields a trimmed string (trimming
it again changes nothing) that is well escaped — no literal markup
characters, and every ampersand starts an entity introduced by the pass
(ampersand is replaced first, so its own entities are never re-escaped). -/
theorem sanitizeMessage_total_spec (s : List Char) :
    EventService.sanitizeMessage JsValue.vOther = [] ∧
    wellEscaped (EventService.sanitizeMessage (JsValue.vStr s)) = true ∧
    jsTrim (EventService.sanitizeMessage (JsValue.vStr s)) =
      EventService.sanitizeMessage (JsValue.vStr s) :=
  ⟨rfl, sanitizeMessage_wellEscaped (JsValue.vStr s),
    jsTrim_idem (escapeHtml s)⟩
